import Mathlib

/-!
Shallow embedding of `src/compile_register.py` (the same core code also
appears in `src/Camelot_Table_Extractor.py`).

Modelling choices:
* A Python `dict` with string keys is an association list kept in insertion
  order with at most one entry per key; `dictGet` is `d.get(k)` and
  `dictSet` is `d[k] = v` (updating in place keeps the key's position,
  inserting a fresh key appends at the end, as CPython dicts do).
* Python `float` values are modelled as exact rationals (`Rat`); the
  decimal literals appearing in the claims are added exactly.  `float(s)`
  is modelled by `pyFloat`, a parser for optionally signed decimal
  literals with optional fraction and exponent (the source also accepts
  `inf`/`nan` spellings; no claim involves them).
* Exceptions are modelled with `Except PyErr`: `float`'s `ValueError`
  carries the offending string (as its message does), and list indexing
  out of range is `IndexError`.
-/

deriving instance DecidableEq for Except

/-- Python dict with string keys: insertion-ordered association list. -/
abbrev PyDict (V : Type) := List (String × V)

/-- `d.get(k)`: the value stored at key `k`, if any. -/
def dictGet {V : Type} (d : PyDict V) (k : String) : Option V :=
  match d with
  | [] => none
  | (k', v) :: rest => if k' = k then some v else dictGet rest k

/-- `d[k] = v`: update in place when the key is present (keeping its
position), otherwise append at the end — CPython dict insertion order. -/
def dictSet {V : Type} (d : PyDict V) (k : String) (v : V) : PyDict V :=
  match d with
  | [] => [(k, v)]
  | (k', v') :: rest => if k' = k then (k', v) :: rest else (k', v') :: dictSet rest k v

/-- The keys of a dict, in order. -/
def dictKeys {V : Type} (d : PyDict V) : List String := d.map Prod.fst

/-- One normalized table row: column-header string to cell string. -/
abbrev RawRow := PyDict String

/-- Modelled Python exceptions raised by the source. -/
inductive PyErr where
  /-- `ValueError` from `float(s)`: its message carries the offending
  string only ("could not convert string to float: ..."). -/
  | valueError (s : String)
  /-- `IndexError: list index out of range`. -/
  | indexError
deriving Repr, DecidableEq

/-- `EmployeeRecord` dataclass from the source. -/
structure EmployeeRecord where
  employee_code : String
  work_code : String
  regular_pay : Rat := 0
  overtime_pay : Rat := 0
  overtime_hours : Rat := 0
deriving Repr, DecidableEq

/-- The `total_pay` property: `regular_pay + overtime_pay`. -/
def EmployeeRecord.total_pay (r : EmployeeRecord) : Rat :=
  r.regular_pay + r.overtime_pay

/-! ### Python string primitives -/

/-- Drop leading and trailing whitespace from a character list. -/
def trimL (l : List Char) : List Char :=
  ((l.dropWhile Char.isWhitespace).reverse.dropWhile Char.isWhitespace).reverse

/-- Python `s.strip()`. -/
def pyStrip (s : String) : String := ⟨trimL s.data⟩

/-- Python `s.lower()` (ASCII case folding, all the claims need). -/
def pyLower (s : String) : String := ⟨s.data.map Char.toLower⟩

/-! ### Python `float` parsing -/

/-- Numeric value of a digit run (most significant first). -/
def digitsToNat (l : List Char) : Nat :=
  l.foldl (fun a c => a * 10 + (c.toNat - '0'.toNat)) 0

/-- Exponent part after `e`/`E`: optional sign then at least one digit. -/
def parseExp (l : List Char) : Option Int :=
  let core : List Char → Option Int := fun ds =>
    if ds ≠ [] ∧ ds.all Char.isDigit then some (digitsToNat ds : Int) else none
  match l with
  | '+' :: rest => core rest
  | '-' :: rest => (core rest).map Neg.neg
  | _ => core l

/-- Unsigned decimal literal: digits, optional `.` and fraction digits,
optional exponent; at least one digit around the dot. -/
def pyFloatCore (l : List Char) : Option Rat :=
  let intPart := l.takeWhile Char.isDigit
  let rest := l.dropWhile Char.isDigit
  match rest with
  | [] => if intPart = [] then none else some (digitsToNat intPart : Rat)
  | '.' :: rest2 =>
    let fracPart := rest2.takeWhile Char.isDigit
    let rest3 := rest2.dropWhile Char.isDigit
    if intPart = [] ∧ fracPart = [] then none
    else
      let mantissa : Rat :=
        (digitsToNat intPart : Rat) + (digitsToNat fracPart : Rat) / ((10 : Rat) ^ fracPart.length)
      match rest3 with
      | [] => some mantissa
      | e :: rest4 =>
        if e = 'e' ∨ e = 'E' then (parseExp rest4).map (fun ex => mantissa * (10 : Rat) ^ ex)
        else none
  | e :: rest4 =>
    if (e = 'e' ∨ e = 'E') ∧ intPart ≠ [] then
      (parseExp rest4).map (fun ex => (digitsToNat intPart : Rat) * (10 : Rat) ^ ex)
    else none

/-- `float(s)` on a string: strip whitespace, optional sign, decimal
literal; `none` models the `ValueError` raise. -/
def pyFloat (s : String) : Option Rat :=
  match trimL s.data with
  | '+' :: rest => pyFloatCore rest
  | '-' :: rest => (pyFloatCore rest).map Neg.neg
  | l => pyFloatCore l

/-! ### Row Normalizer: `parse_pdf` -/

/-- A cell handed back by the external table extraction: `None` or text. -/
abbrev PdfCell := Option String

/-- `h.strip() if h else ""` applied to a header cell. -/
def stripHeader (h : PdfCell) : String := pyStrip (h.getD "")

/-- The dict comprehension
`{headers[i]: (line[i] or "").strip() for i in range(len(headers))}`:
walk the headers in index order; a data row shorter than the headers hits
`line[i]` out of range, an `IndexError`. -/
def buildRowGo (d : RawRow) : List String → List PdfCell → Except PyErr RawRow
  | [], _ => .ok d
  | _ :: _, [] => .error .indexError
  | h :: hs, c :: cs => buildRowGo (dictSet d h (pyStrip (c.getD ""))) hs cs

/-- Build one `RawRow` from the stripped headers and a data line. -/
def buildRow (headers : List String) (line : List PdfCell) : Except PyErr RawRow :=
  buildRowGo [] headers line

/-- One page's table: row 0 is the header, the rest are data lines. -/
def parsePage (rows : List RawRow) (table : List (List PdfCell)) :
    Except PyErr (List RawRow) :=
  match table with
  | [] => .ok rows
  | headerLine :: body =>
    let headers := headerLine.map stripHeader
    body.foldlM (fun rs line => do
      let row ← buildRow headers line
      .ok (rs ++ [row])) rows

/-- `parse_pdf`: each page yields either no table (`None`, skipped) or a
grid whose first row is the header. -/
def parse_pdf (pages : List (Option (List (List PdfCell)))) :
    Except PyErr (List RawRow) :=
  pages.foldlM (fun rows page =>
    match page with
    | none => .ok rows
    | some table => parsePage rows table) []

/-! ### Record Compiler: `compile_records` -/

/-- Python `a or b` on optional strings: the first truthy value wins,
an empty string is falsy. -/
def pyOrStr (a b : Option String) : Option String :=
  match a with
  | some s => if s = "" then b else some s
  | none => b

/-- `row.get("Name") or row.get("Employee") or row.get("Employee Name")`. -/
def resolveName (row : RawRow) : Option String :=
  pyOrStr (dictGet row "Name") (pyOrStr (dictGet row "Employee") (dictGet row "Employee Name"))

/-- The name a row contributes under, or `none` when the row is skipped
(`if not name: continue` also skips a resolved empty string). -/
def rowName (row : RawRow) : Option String :=
  match resolveName row with
  | some s => if s = "" then none else some s
  | none => none

/-- Follows the claim's words (C6), for comparison with `rowName`: check
the keys "Name", "Employee", "Employee Name" in priority order and take
the first present non-empty value. -/
def resolveNameSpec (row : RawRow) : Option String :=
  (["Name", "Employee", "Employee Name"].filterMap (fun k => dictGet row k)).find?
    (fun s => s != "")

/-- `float(row.get(k, 0) or 0)`: a missing key defaults to `0`, a falsy
(empty) string collapses to `0`, anything else is parsed by `float`. -/
def parseField (row : RawRow) (k : String) : Except PyErr Rat :=
  match dictGet row k with
  | none => .ok 0
  | some s =>
    if s = "" then .ok 0
    else
      match pyFloat s with
      | some q => .ok q
      | none => .error (.valueError s)

/-- Substring test at the head of a character list. -/
def startsWithL : List Char → List Char → Bool
  | [], _ => true
  | _ :: _, [] => false
  | a :: as, b :: bs => a = b && startsWithL as bs

/-- `needle in haystack` on character lists. -/
def containsL (needle : List Char) : List Char → Bool
  | [] => needle.isEmpty
  | c :: cs => startsWithL needle (c :: cs) || containsL needle cs

/-- Python `needle in hay` on strings. -/
def strContains (hay needle : String) : Bool :=
  containsL needle.toList hay.toList

/-- `"ot" in pay_type or "overtime" in pay_type` after
`pay_type = (row.get("Pay Type") or "").lower()`. -/
def isOvertimeRow (row : RawRow) : Bool :=
  let pay_type := pyLower ((dictGet row "Pay Type").getD "")
  strContains pay_type "ot" || strContains pay_type "overtime"

/-- Steps 3–4: set the employee code, then the work code, from the row
whenever the stored value is still falsy (the empty string). -/
def applyCodes (r : EmployeeRecord) (row : RawRow) : EmployeeRecord :=
  let r1 := if r.employee_code = "" then
    { r with employee_code := (dictGet row "Employee Code").getD "" } else r
  if r1.work_code = "" then
    { r1 with work_code := (dictGet row "Work Code").getD "" } else r1

/-- Step 7: route the parsed hours/amount by the pay-type classification. -/
def applyPay (r : EmployeeRecord) (row : RawRow) (hours amount : Rat) : EmployeeRecord :=
  if isOvertimeRow row then
    { r with overtime_hours := r.overtime_hours + hours,
             overtime_pay := r.overtime_pay + amount }
  else
    { r with regular_pay := r.regular_pay + amount }

/-- One iteration of the `for row in rows` loop of `compile_records`. -/
def stepRow (employees : PyDict EmployeeRecord) (row : RawRow) :
    Except PyErr (PyDict EmployeeRecord) :=
  match rowName row with
  | none => .ok employees
  | some name => do
    let record := (dictGet employees name).getD (EmployeeRecord.mk "" "" 0 0 0)
    let record := applyCodes record row
    let hours ← parseField row "Hours"
    let amount ← parseField row "Amount"
    .ok (dictSet employees name (applyPay record row hours amount))

/-- The loop of `compile_records` from an arbitrary starting dict. -/
def compileAux (employees : PyDict EmployeeRecord) (rows : List RawRow) :
    Except PyErr (PyDict EmployeeRecord) :=
  rows.foldlM stepRow employees

/-- `compile_records`: fold the rows into the (initially empty)
defaultdict of employee records. -/
def compile_records (rows : List RawRow) : Except PyErr (PyDict EmployeeRecord) :=
  compileAux [] rows

/-- Append a name to the seen list unless it is already there. -/
def seenInsert (acc : List String) (n : String) : List String :=
  if n ∈ acc then acc else acc ++ [n]

/-- Follows the claim's words (C7), for comparison with the compiled
dict's key list: the distinct names in first-seen order. -/
def firstSeen (names : List String) : List String :=
  names.foldl seenInsert []

/-- The C7 precondition on one row: its parsed "Hours" and "Amount"
values (when they parse) are non-negative. -/
def rowNonneg (row : RawRow) : Prop :=
  0 ≤ ((parseField row "Hours").toOption.getD 0) ∧
  0 ≤ ((parseField row "Amount").toOption.getD 0)

instance (row : RawRow) : Decidable (rowNonneg row) := by
  unfold rowNonneg
  infer_instance

/-- Componentwise order on the three pay/hour accumulators. -/
def EmployeeRecord.le (r r' : EmployeeRecord) : Prop :=
  r.regular_pay ≤ r'.regular_pay ∧ r.overtime_pay ≤ r'.overtime_pay ∧
  r.overtime_hours ≤ r'.overtime_hours

instance (r r' : EmployeeRecord) : Decidable (r.le r') := by
  unfold EmployeeRecord.le
  infer_instance

/-! ### `write_excel` -/

/-- A spreadsheet cell: the source writes strings and numbers. -/
inductive XCell where
  | str (s : String)
  | num (q : Rat)
deriving Repr, DecidableEq

/-- The header row appended by the openpyxl backend. -/
def wbHeader : List XCell :=
  [.str "Name", .str "Employee Code", .str "Work Code", .str "Pay", .str "OT Hours", .str "Tips"]

/-- One data row appended by the openpyxl backend. -/
def wbRow (nr : String × EmployeeRecord) : List XCell :=
  [.str nr.1, .str nr.2.employee_code, .str nr.2.work_code,
   .num nr.2.total_pay, .num nr.2.overtime_hours, .num 0]

/-- The openpyxl backend of `write_excel`: the sheet rows, in append
order — header first, then one row per record. -/
def writeExcelWB (records : PyDict EmployeeRecord) : List (List XCell) :=
  wbHeader :: records.map wbRow

/-- The `data` list of dicts the pandas backend hands to `pd.DataFrame`. -/
def writeExcelDFData (records : PyDict EmployeeRecord) : List (PyDict XCell) :=
  records.map (fun nr =>
    [("Name", .str nr.1), ("Employee Code", .str nr.2.employee_code),
     ("Work Code", .str nr.2.work_code), ("Pay", .num nr.2.total_pay),
     ("OT Hours", .num nr.2.overtime_hours), ("Tips", .num 0)])

/-- Modelled from the spec: the external tabular-dataframe writer
(`pd.DataFrame(data).to_excel(path, index=False)`, not part of this
repository) "write[s] a spreadsheet file with one header row and one row
per record, column order as listed" — the header holds the record keys in
order, then each record's values follow in that order. -/
def dfToTable (data : List (PyDict XCell)) : List (List XCell) :=
  match data with
  | [] => []
  | d :: _ => (d.map (fun kv => XCell.str kv.1)) :: data.map (fun r => r.map Prod.snd)

/-! ### Dictionary lemmas -/

theorem dictGet_dictSet {V : Type} (d : PyDict V) (k k' : String) (v : V) :
    dictGet (dictSet d k v) k' = if k = k' then some v else dictGet d k' := by
  induction d with
  | nil => simp [dictGet, dictSet]
  | cons hd tl ih =>
    obtain ⟨k0, v0⟩ := hd
    by_cases h0 : k0 = k
    · subst h0
      by_cases h1 : k0 = k'
      · subst h1; simp [dictGet, dictSet]
      · simp [dictGet, dictSet, h1, Ne.symm h1]
    · by_cases h1 : k0 = k'
      · subst h1
        have hne : k ≠ k0 := fun h => h0 h.symm
        simp [dictGet, dictSet, h0, hne]
      · simp [dictGet, dictSet, h0, h1, ih]

theorem dictKeys_dictSet {V : Type} (d : PyDict V) (k : String) (v : V) :
    dictKeys (dictSet d k v) =
      if k ∈ dictKeys d then dictKeys d else dictKeys d ++ [k] := by
  induction d with
  | nil => simp [dictKeys, dictSet]
  | cons hd tl ih =>
    obtain ⟨k0, v0⟩ := hd
    by_cases h0 : k0 = k
    · subst h0; simp [dictKeys, dictSet]
    · have hne : k ≠ k0 := fun h => h0 h.symm
      simp only [dictKeys] at ih
      by_cases h1 : k ∈ tl.map Prod.fst
      · simp [dictKeys, dictSet, h0, h1, hne, ih]
      · simp [dictKeys, dictSet, h0, h1, hne, ih]

theorem dictGet_eq_none_iff {V : Type} (d : PyDict V) (k : String) :
    dictGet d k = none ↔ k ∉ dictKeys d := by
  induction d with
  | nil => simp [dictGet, dictKeys]
  | cons hd tl ih =>
    obtain ⟨k0, v0⟩ := hd
    by_cases h0 : k0 = k
    · subst h0; simp [dictGet, dictKeys]
    · simp [dictGet, dictKeys, h0, ih, Ne.symm h0]

/-! ### Structural lemmas for the compiler loop -/

theorem compileAux_nil (st : PyDict EmployeeRecord) : compileAux st [] = .ok st := rfl

theorem compileAux_cons (st : PyDict EmployeeRecord) (row : RawRow) (rows : List RawRow) :
    compileAux st (row :: rows) =
      (stepRow st row).bind (fun st2 => compileAux st2 rows) := by
  show List.foldlM stepRow st (row :: rows) = _
  rw [List.foldlM_cons]
  rfl

theorem compileAux_error (st : PyDict EmployeeRecord) (row : RawRow) (rows : List RawRow)
    (e : PyErr) (h : stepRow st row = .error e) :
    compileAux st (row :: rows) = .error e := by
  rw [compileAux_cons, h]
  rfl

theorem stepRow_skip (st : PyDict EmployeeRecord) (row : RawRow)
    (h : rowName row = none) : stepRow st row = .ok st := by
  simp [stepRow, h]

theorem stepRow_named (st : PyDict EmployeeRecord) (row : RawRow) (n : String)
    (h : rowName row = some n) :
    stepRow st row =
      (parseField row "Hours").bind (fun hours =>
        (parseField row "Amount").bind (fun amount =>
          .ok (dictSet st n
            (applyPay (applyCodes ((dictGet st n).getD (EmployeeRecord.mk "" "" 0 0 0)) row)
              row hours amount)))) := by
  simp [stepRow, h]
  rfl

/-! ### Claim theorems

`Rat.add`/`Rat.mul`/`Rat.inv`/`Rat.sub` are `[irreducible]`, which blocks
`decide` on concrete runs of the embedded functions; the kernel reduces
them fine, so they are made semireducible for this section. -/

section

attribute [local semireducible] Rat.add Rat.mul Rat.inv Rat.sub

theorem exceptBind_ok {ε α β : Type} (a : α) (f : α → Except ε β) :
    (Except.ok a : Except ε α).bind f = f a := rfl

theorem exceptBind_error {ε α β : Type} (e : ε) (f : α → Except ε β) :
    (Except.error e : Except ε α).bind f = .error e := rfl

theorem buildRowGo_short (d : RawRow) (hs : List String) (cs : List PdfCell)
    (h : cs.length < hs.length) : buildRowGo d hs cs = .error .indexError := by
  induction hs generalizing d cs with
  | nil => simp at h
  | cons h0 hs ih =>
    cases cs with
    | nil => rfl
    | cons c cs =>
      exact ih _ _ (Nat.lt_of_succ_lt_succ h)

/-- C2: the claim says `parse_pdf` handles a data row with fewer cells than
the header row totally — dropping it or padding with empty trailing cells,
never failing with an index-out-of-range error.  The code contradicts
this: whenever the data line is shorter than the header list, the row-dict
comprehension hits `line[i]` out of range, and on a one-page grid whose
header has two cells and whose only data row has one, `parse_pdf` raises
`IndexError`. -/
theorem parse_pdf_short_row_raises :
    (∀ headers line, line.length < headers.length →
      buildRow headers line = .error .indexError) ∧
    parse_pdf [some [[some "Name", some "Pay Type"], [some "Bob"]]] = .error .indexError := by
  constructor
  · intro headers line h
    exact buildRowGo_short [] headers line h
  · decide

/-- Witness for the C2 theorem at the concrete short row. -/
theorem parse_pdf_short_row_raises_witness :
    buildRow ["Name", "Pay Type"] [some "Bob"] = .error .indexError ∧
    parse_pdf [some [[some "Name", some "Pay Type"], [some "Bob"]]] = .error .indexError :=
  ⟨parse_pdf_short_row_raises.1 ["Name", "Pay Type"] [some "Bob"] (by decide),
   parse_pdf_short_row_raises.2⟩

/-- C5: on the two rows for "A" (one Regular with Amount 100, one OT with
Amount 50 and Hours 5), `compile_records` produces exactly one record,
keyed "A", with regular pay 100, overtime pay 50, overtime hours 5, and
derived total pay 150; moreover per-row accumulation routes an overtime
row's hours/amount to the overtime accumulators and a regular row's amount
to the regular-pay accumulator only. -/
theorem compile_records_accumulation :
    compile_records [[("Name", "A"), ("Pay Type", "Regular"), ("Amount", "100")],
        [("Name", "A"), ("Pay Type", "OT"), ("Amount", "50"), ("Hours", "5")]] =
      .ok [("A", ⟨"", "", 100, 50, 5⟩)] ∧
    EmployeeRecord.total_pay ⟨"", "", 100, 50, 5⟩ = 150 ∧
    (∀ (r : EmployeeRecord) (row : RawRow) (hours amount : Rat),
      applyPay r row hours amount =
        if isOvertimeRow row then
          { r with overtime_hours := r.overtime_hours + hours,
                   overtime_pay := r.overtime_pay + amount }
        else { r with regular_pay := r.regular_pay + amount }) :=
  ⟨by decide, by decide, fun _ _ _ _ => rfl⟩

/-- C1 counterexample: the first row for "A" carries a blank
"Employee Code" and the second row carries "E9"; the claim says the
record's employee code must remain blank, but `compile_records` reports
"E9" — the guard `if not record.employee_code` re-fires after a blank
write. -/
theorem compile_records_blank_code_overwritten :
    compile_records [[("Name", "A"), ("Employee Code", "")],
        [("Name", "A"), ("Employee Code", "E9")]] =
      .ok [("A", ⟨"E9", "", 0, 0, 0⟩)] ∧ ("E9" : String) ≠ "" :=
  ⟨by decide, by decide⟩

theorem applyPay_employee_code (r : EmployeeRecord) (row : RawRow) (hours amount : Rat) :
    (applyPay r row hours amount).employee_code = r.employee_code := by
  unfold applyPay
  split <;> rfl

theorem applyPay_work_code (r : EmployeeRecord) (row : RawRow) (hours amount : Rat) :
    (applyPay r row hours amount).work_code = r.work_code := by
  unfold applyPay
  split <;> rfl

theorem applyCodes_employee_code (r : EmployeeRecord) (row : RawRow)
    (hne : r.employee_code ≠ "") : (applyCodes r row).employee_code = r.employee_code := by
  unfold applyCodes
  rw [if_neg hne]
  by_cases hw : r.work_code = "" <;> simp [hw]

theorem applyCodes_work_code (r : EmployeeRecord) (row : RawRow)
    (hne : r.work_code ≠ "") : (applyCodes r row).work_code = r.work_code := by
  by_cases he : r.employee_code = "" <;> simp [applyCodes, he, hne]

theorem step_preserves_nonempty_codes (st : PyDict EmployeeRecord) (row : RawRow)
    (st' : PyDict EmployeeRecord) (n : String) (r : EmployeeRecord)
    (hok : stepRow st row = .ok st') (hget : dictGet st n = some r) :
    ∃ r', dictGet st' n = some r' ∧
      (r.employee_code ≠ "" → r'.employee_code = r.employee_code) ∧
      (r.work_code ≠ "" → r'.work_code = r.work_code) := by
  cases hn : rowName row with
  | none =>
    rw [stepRow_skip st row hn] at hok
    cases hok
    exact ⟨r, hget, fun _ => rfl, fun _ => rfl⟩
  | some name =>
    rw [stepRow_named st row name hn] at hok
    cases hh : parseField row "Hours" with
    | error e =>
      rw [hh, exceptBind_error] at hok
      cases hok
    | ok hours =>
      cases ha : parseField row "Amount" with
      | error e =>
        rw [hh, exceptBind_ok, ha, exceptBind_error] at hok
        cases hok
      | ok amount =>
        rw [hh, exceptBind_ok, ha, exceptBind_ok] at hok
        cases hok
        by_cases hname : name = n
        · subst hname
          rw [hget] at *
          refine ⟨applyPay (applyCodes r row) row hours amount, ?_, ?_, ?_⟩
          · rw [dictGet_dictSet, if_pos rfl]
            rw [hget]
            rfl
          · intro hne
            rw [applyPay_employee_code, applyCodes_employee_code r row hne]
          · intro hne
            rw [applyPay_work_code, applyCodes_work_code r row hne]
        · refine ⟨r, ?_, fun _ => rfl, fun _ => rfl⟩
          rw [dictGet_dictSet, if_neg hname, hget]

/-- C1 amended: once a record's employee code is non-empty, no later row
for that name changes it, and the same holds for the work code (first
non-empty value wins).  A blank write does not protect the field: while
the stored code is still the empty string, each later row for that name
sets it again from its own "Employee Code" / "Work Code" cell, so a later
non-empty value replaces a blank one (see the counterexample). -/
theorem compile_records_code_first_nonempty_wins
    (rows : List RawRow) (st st' : PyDict EmployeeRecord) (n : String)
    (r : EmployeeRecord) (hok : compileAux st rows = .ok st')
    (hget : dictGet st n = some r) :
    ∃ r', dictGet st' n = some r' ∧
      (r.employee_code ≠ "" → r'.employee_code = r.employee_code) ∧
      (r.work_code ≠ "" → r'.work_code = r.work_code) := by
  induction rows generalizing st r with
  | nil =>
    rw [compileAux_nil] at hok
    cases hok
    exact ⟨r, hget, fun _ => rfl, fun _ => rfl⟩
  | cons row rest ih =>
    rw [compileAux_cons] at hok
    cases hstep : stepRow st row with
    | error e =>
      rw [hstep, exceptBind_error] at hok
      cases hok
    | ok st2 =>
      rw [hstep, exceptBind_ok] at hok
      obtain ⟨r2, hget2, he2, hw2⟩ := step_preserves_nonempty_codes st row st2 n r hstep hget
      obtain ⟨r', hget', he', hw'⟩ := ih st2 r2 hok hget2
      refine ⟨r', hget', ?_, ?_⟩
      · intro hne
        rw [he' (by rw [he2 hne]; exact hne), he2 hne]
      · intro hne
        rw [hw' (by rw [hw2 hne]; exact hne), hw2 hne]

/-- Witness for the C1 amended theorem: a non-empty code "E1"/"W1"
persists across a further row carrying "X". -/
theorem compile_records_code_first_nonempty_wins_witness :
    ∃ r', dictGet [("A", (⟨"E1", "W1", 0, 0, 0⟩ : EmployeeRecord))] "A" = some r' ∧
      ((⟨"E1", "W1", 0, 0, 0⟩ : EmployeeRecord).employee_code ≠ "" →
        r'.employee_code = (⟨"E1", "W1", 0, 0, 0⟩ : EmployeeRecord).employee_code) ∧
      ((⟨"E1", "W1", 0, 0, 0⟩ : EmployeeRecord).work_code ≠ "" →
        r'.work_code = (⟨"E1", "W1", 0, 0, 0⟩ : EmployeeRecord).work_code) :=
  compile_records_code_first_nonempty_wins
    [[("Name", "A"), ("Employee Code", "X"), ("Work Code", "Y")]]
    [("A", ⟨"E1", "W1", 0, 0, 0⟩)] [("A", ⟨"E1", "W1", 0, 0, 0⟩)] "A"
    ⟨"E1", "W1", 0, 0, 0⟩ (by decide) (by decide)

/-- C3 counterexample: the claim says a non-numeric value fails "with a
ValueParseError that names the offending field and row".  The error the
code raises is `float`'s `ValueError`, which carries only the offending
string: two compilations whose offending field (Hours vs Amount) and row
differ produce the *same* error value, so the error names neither the
field nor the row. -/
theorem compile_records_error_not_field_specific :
    compile_records [[("Name", "A"), ("Hours", "x")]] = .error (.valueError "x") ∧
    compile_records [[("Name", "A"), ("Amount", "x")]] = .error (.valueError "x") ∧
    ([[("Name", "A"), ("Hours", "x")]] : List RawRow) ≠ [[("Name", "A"), ("Amount", "x")]] :=
  ⟨by decide, by decide, by decide⟩

/-- C3 amended: for every named row, "Hours" and "Amount" are parsed as
numbers; a missing or empty value is treated as 0 rather than failing,
and a non-numeric non-empty value makes the whole compilation fail — with
`float`'s `ValueError` carrying the offending value only, not the field or
row — raising exactly in this case, with no per-row recovery. -/
theorem compile_records_numeric_parsing :
    (∀ (row : RawRow) (k : String), dictGet row k = none → parseField row k = .ok 0) ∧
    (∀ (row : RawRow) (k : String), dictGet row k = some "" → parseField row k = .ok 0) ∧
    (∀ (row : RawRow) (k s : String), dictGet row k = some s → s ≠ "" → pyFloat s = none →
      parseField row k = .error (.valueError s)) ∧
    (∀ (st : PyDict EmployeeRecord) (row : RawRow) (n s : String),
      rowName row = some n → dictGet row "Hours" = some s → s ≠ "" → pyFloat s = none →
      stepRow st row = .error (.valueError s)) ∧
    (∀ (st : PyDict EmployeeRecord) (row : RawRow) (n s : String) (q : Rat),
      rowName row = some n → parseField row "Hours" = .ok q →
      dictGet row "Amount" = some s → s ≠ "" → pyFloat s = none →
      stepRow st row = .error (.valueError s)) ∧
    (∀ (st : PyDict EmployeeRecord) (row : RawRow),
      (∀ n, rowName row = some n →
        (parseField row "Hours").isOk ∧ (parseField row "Amount").isOk) →
      ∃ st2, stepRow st row = .ok st2) ∧
    (∀ (st : PyDict EmployeeRecord) (row : RawRow) (rest : List RawRow) (e : PyErr),
      stepRow st row = .error e → compileAux st (row :: rest) = .error e) := by
  refine ⟨?_, ?_, ?_, ?_, ?_, ?_, ?_⟩
  · intro row k h
    simp [parseField, h]
  · intro row k h
    simp [parseField, h]
  · intro row k s h hs hf
    simp [parseField, h, hs, hf]
  · intro st row n s hn hh hs hf
    rw [stepRow_named st row n hn,
      show parseField row "Hours" = .error (.valueError s) by simp [parseField, hh, hs, hf],
      exceptBind_error]
  · intro st row n s q hn hq ha hs hf
    rw [stepRow_named st row n hn, hq, exceptBind_ok,
      show parseField row "Amount" = .error (.valueError s) by simp [parseField, ha, hs, hf],
      exceptBind_error]
  · intro st row h
    cases hn : rowName row with
    | none => exact ⟨st, stepRow_skip st row hn⟩
    | some n =>
      obtain ⟨h1, h2⟩ := h n hn
      cases hh : parseField row "Hours" with
      | error e => rw [hh] at h1; simp [Except.isOk, Except.toBool] at h1
      | ok hours =>
        cases ha : parseField row "Amount" with
        | error e => rw [ha] at h2; simp [Except.isOk, Except.toBool] at h2
        | ok amount =>
          exact ⟨_, by rw [stepRow_named st row n hn, hh, exceptBind_ok, ha, exceptBind_ok]⟩
  · intro st row rest e h
    exact compileAux_error st row rest e h

/-- Witness for the C3 amended theorem at concrete rows. -/
theorem compile_records_numeric_parsing_witness :
    parseField [("Name", "A")] "Amount" = .ok 0 ∧
    parseField [("Name", "A"), ("Hours", "")] "Hours" = .ok 0 ∧
    parseField [("Name", "A"), ("Hours", "x")] "Hours" = .error (.valueError "x") ∧
    stepRow [] [("Name", "A"), ("Hours", "x")] = .error (.valueError "x") ∧
    stepRow [] [("Name", "A"), ("Amount", "x")] = .error (.valueError "x") ∧
    (∃ st2, stepRow [] [("Name", "A")] = .ok st2) ∧
    compileAux [] [[("Name", "A"), ("Hours", "x")], [("Name", "B")]] =
      .error (.valueError "x") :=
  ⟨compile_records_numeric_parsing.1 [("Name", "A")] "Amount" (by decide),
   compile_records_numeric_parsing.2.1 [("Name", "A"), ("Hours", "")] "Hours" (by decide),
   compile_records_numeric_parsing.2.2.1 [("Name", "A"), ("Hours", "x")] "Hours" "x"
     (by decide) (by decide) (by decide),
   compile_records_numeric_parsing.2.2.2.1 [] [("Name", "A"), ("Hours", "x")] "A" "x"
     (by decide) (by decide) (by decide) (by decide),
   compile_records_numeric_parsing.2.2.2.2.1 [] [("Name", "A"), ("Amount", "x")] "A" "x" 0
     (by decide) (by decide) (by decide) (by decide) (by decide),
   compile_records_numeric_parsing.2.2.2.2.2.1 [] [("Name", "A")] (fun n _ => by decide),
   compile_records_numeric_parsing.2.2.2.2.2.2 [] [("Name", "A"), ("Hours", "x")]
     [[("Name", "B")]] (.valueError "x") (by decide)⟩

/-- C4: a named row's amount is routed to the overtime accumulator exactly
when the lower-cased "Pay Type" value (default empty when absent) contains
"ot" or "overtime" as a substring, and to the regular accumulator
otherwise; in particular a row with Pay Type "Rot" counts as overtime. -/
theorem compile_records_overtime_classification :
    (∀ pt : String,
      compile_records [[("Name", "A"), ("Pay Type", pt), ("Amount", "7")]] =
        .ok [("A",
          if strContains (pyLower pt) "ot" || strContains (pyLower pt) "overtime" then
            ⟨"", "", 0, 7, 0⟩ else ⟨"", "", 7, 0, 0⟩)]) ∧
    compile_records [[("Name", "A"), ("Pay Type", "Rot"), ("Amount", "7")]] =
      .ok [("A", ⟨"", "", 0, 7, 0⟩)] := by
  constructor
  · intro pt
    have hn : rowName [("Name", "A"), ("Pay Type", pt), ("Amount", "7")] = some "A" := by
      simp [rowName, resolveName, pyOrStr, dictGet]
    have hh : parseField [("Name", "A"), ("Pay Type", pt), ("Amount", "7")] "Hours" = .ok 0 := by
      simp [parseField, dictGet]
    have ha : parseField [("Name", "A"), ("Pay Type", pt), ("Amount", "7")] "Amount" =
        .ok 7 := by
      simp [parseField, dictGet, show pyFloat "7" = some (7 : Rat) from by decide]
    show compileAux [] _ = _
    rw [compileAux_cons, stepRow_named _ _ _ hn, hh, exceptBind_ok, ha, exceptBind_ok,
      exceptBind_ok, compileAux_nil]
    by_cases hC : (strContains (pyLower pt) "ot" || strContains (pyLower pt) "overtime") = true
    · simp [dictSet, applyPay, isOvertimeRow, applyCodes, dictGet, hC]
    · simp [dictSet, applyPay, isOvertimeRow, applyCodes, dictGet, hC]
  · decide

/-- C9 (implicit): both numeric fields are parsed before the pay type is
classified, so a non-numeric non-empty "Hours" value aborts the whole
compilation whatever the "Pay Type" value is — including regular rows,
whose parsed hours are never accumulated anywhere. -/
theorem compile_records_hours_parsed_before_classify (pt : String) :
    compile_records [[("Name", "A"), ("Pay Type", pt), ("Hours", "abc"), ("Amount", "50")]] =
      .error (.valueError "abc") := by
  have hn : rowName [("Name", "A"), ("Pay Type", pt), ("Hours", "abc"), ("Amount", "50")] =
      some "A" := by
    simp [rowName, resolveName, pyOrStr, dictGet]
  have hh : parseField [("Name", "A"), ("Pay Type", pt), ("Hours", "abc"), ("Amount", "50")]
      "Hours" = .error (.valueError "abc") := by
    simp [parseField, dictGet, show pyFloat "abc" = none from by decide]
  show compileAux [] _ = _
  rw [compileAux_cons, stepRow_named _ _ _ hn, hh, exceptBind_error, exceptBind_error]

/-- C6: the name a row contributes under is resolved by checking the keys
"Name", "Employee", "Employee Name" in that priority order, taking the
first present non-empty value; a row in which none of the three yields a
non-empty value is skipped entirely — it contributes nothing to any
record and never raises an error. -/
theorem compile_records_name_resolution :
    (∀ row : RawRow, rowName row = resolveNameSpec row) ∧
    (∀ (st : PyDict EmployeeRecord) (row : RawRow) (rest : List RawRow),
      rowName row = none → compileAux st (row :: rest) = compileAux st rest) := by
  constructor
  · intro row
    cases h1 : dictGet row "Name" with
    | none =>
      cases h2 : dictGet row "Employee" with
      | none =>
        cases h3 : dictGet row "Employee Name" with
        | none => simp [rowName, resolveName, resolveNameSpec, pyOrStr, h1, h2, h3]
        | some s3 =>
          by_cases e3 : s3 = "" <;>
            simp [rowName, resolveName, resolveNameSpec, pyOrStr, h1, h2, h3, e3]
      | some s2 =>
        by_cases e2 : s2 = ""
        · cases h3 : dictGet row "Employee Name" with
          | none => simp [rowName, resolveName, resolveNameSpec, pyOrStr, h1, h2, h3, e2]
          | some s3 =>
            by_cases e3 : s3 = "" <;>
              simp [rowName, resolveName, resolveNameSpec, pyOrStr, h1, h2, h3, e2, e3]
        · simp [rowName, resolveName, resolveNameSpec, pyOrStr, h1, h2, e2]
    | some s1 =>
      by_cases e1 : s1 = ""
      · cases h2 : dictGet row "Employee" with
        | none =>
          cases h3 : dictGet row "Employee Name" with
          | none => simp [rowName, resolveName, resolveNameSpec, pyOrStr, h1, h2, h3, e1]
          | some s3 =>
            by_cases e3 : s3 = "" <;>
              simp [rowName, resolveName, resolveNameSpec, pyOrStr, h1, h2, h3, e1, e3]
        | some s2 =>
          by_cases e2 : s2 = ""
          · cases h3 : dictGet row "Employee Name" with
            | none =>
              simp [rowName, resolveName, resolveNameSpec, pyOrStr, h1, h2, h3, e1, e2]
            | some s3 =>
              by_cases e3 : s3 = "" <;>
                simp [rowName, resolveName, resolveNameSpec, pyOrStr, h1, h2, h3, e1, e2, e3]
          · simp [rowName, resolveName, resolveNameSpec, pyOrStr, h1, h2, e1, e2]
      · simp [rowName, resolveName, resolveNameSpec, pyOrStr, h1, e1]
  · intro st row rest h
    rw [compileAux_cons, stepRow_skip st row h, exceptBind_ok]

/-- Witness for the C6 theorem: a row with no name key is skipped. -/
theorem compile_records_name_resolution_witness :
    compileAux [] [[("Foo", "1")], [("Name", "B")]] = compileAux [] [[("Name", "B")]] :=
  compile_records_name_resolution.2 [] [("Foo", "1")] [[("Name", "B")]] (by decide)

/-- C8: the workbook-cell-append backend emits exactly one header row with
labels Name, Employee Code, Work Code, Pay, OT Hours, Tips, then one row
per record in the mapping's order; the Pay cell is regular plus overtime
pay and the Tips cell is the constant 0.  For a non-empty mapping the
dataframe backend (its serialization modelled from the spec's consumed
interface) produces the identical table, in particular the same column
order and header labels. -/
theorem write_excel_backends_agree :
    (∀ records : PyDict EmployeeRecord,
      writeExcelWB records = wbHeader :: records.map wbRow) ∧
    wbHeader = [.str "Name", .str "Employee Code", .str "Work Code", .str "Pay",
      .str "OT Hours", .str "Tips"] ∧
    (∀ (n : String) (r : EmployeeRecord), wbRow (n, r) =
      [.str n, .str r.employee_code, .str r.work_code,
       .num (r.regular_pay + r.overtime_pay), .num r.overtime_hours, .num 0]) ∧
    (∀ records : PyDict EmployeeRecord, records ≠ [] →
      dfToTable (writeExcelDFData records) = writeExcelWB records) := by
  refine ⟨fun records => rfl, rfl, fun n r => rfl, ?_⟩
  intro records h
  cases records with
  | nil => exact absurd rfl h
  | cons hd tl =>
    simp [dfToTable, writeExcelDFData, writeExcelWB, wbHeader, wbRow,
      EmployeeRecord.total_pay]

/-- Witness for the C8 theorem on a one-record mapping. -/
theorem write_excel_backends_agree_witness :
    dfToTable (writeExcelDFData [("A", ⟨"E", "W", 3, 4, 5⟩)]) =
      writeExcelWB [("A", ⟨"E", "W", 3, 4, 5⟩)] :=
  write_excel_backends_agree.2.2.2 [("A", ⟨"E", "W", 3, 4, 5⟩)] (by decide)

theorem buildRowGo_get_absent (d : RawRow) (hs : List String) (cs : List PdfCell)
    (row : RawRow) (k : String) (hk : k ∉ hs) (hok : buildRowGo d hs cs = .ok row) :
    dictGet row k = dictGet d k := by
  induction hs generalizing d cs with
  | nil =>
    simp only [buildRowGo] at hok
    cases hok
    rfl
  | cons h0 hs ih =>
    cases cs with
    | nil =>
      simp only [buildRowGo] at hok
      cases hok
    | cons c cs =>
      simp only [buildRowGo] at hok
      have h1 : k ∉ hs := fun h => hk (List.mem_cons_of_mem _ h)
      have h0k : h0 ≠ k := fun h => hk (h ▸ List.mem_cons_self _ _)
      rw [ih (dictSet d h0 (pyStrip (c.getD ""))) cs h1 hok, dictGet_dictSet, if_neg h0k]

theorem buildRowGo_last_wins (hs : List String) (cs : List PdfCell) (d : RawRow)
    (row : RawRow) (i : Nat) (hok : buildRowGo d hs cs = .ok row) (hi : i < hs.length)
    (hlast : ∀ j, j < hs.length → hs.getD j "" = hs.getD i "" → j ≤ i) :
    dictGet row (hs.getD i "") = some (pyStrip ((cs.getD i none).getD "")) := by
  induction hs generalizing d cs i with
  | nil => simp at hi
  | cons h0 hs ih =>
    cases cs with
    | nil =>
      simp only [buildRowGo] at hok
      cases hok
    | cons c cs =>
      simp only [buildRowGo] at hok
      cases i with
      | zero =>
        have hnot : h0 ∉ hs := by
          intro hmem
          obtain ⟨j, hj, hjeq⟩ := List.getElem_of_mem hmem
          have hd : hs.getD j "" = (h0 :: hs).getD 0 "" := by
            rw [List.getD_cons_zero, List.getD_eq_getElem _ _ hj, hjeq]
          have := hlast (j + 1) (by simpa using Nat.succ_lt_succ hj) (by simpa using hd)
          omega
        rw [List.getD_cons_zero,
          buildRowGo_get_absent _ hs cs row h0 hnot hok, dictGet_dictSet, if_pos rfl]
        simp
      | succ i =>
        have hi' : i < hs.length := Nat.lt_of_succ_lt_succ hi
        have hlast' : ∀ j, j < hs.length → hs.getD j "" = hs.getD i "" → j ≤ i := by
          intro j hj hjeq
          have := hlast (j + 1) (Nat.succ_lt_succ hj) (by simpa using hjeq)
          omega
        simpa using ih cs (dictSet d h0 (pyStrip (c.getD ""))) i hok hi' hlast'

/-- C10 (implicit): when the (stripped) header list carries the same
string in more than one column, the row dict built by `parse_pdf`'s
comprehension maps that key to the cell of the last such column — index
`i` below is the last column whose header equals `headers.getD i ""` —
so the cells of earlier duplicate columns are absent from the `RawRow`,
the dict holding a single value per key. -/
theorem parse_pdf_duplicate_header_last_wins
    (headers : List String) (line : List PdfCell) (row : RawRow) (i : Nat)
    (hok : buildRow headers line = .ok row) (hi : i < headers.length)
    (hlast : ∀ j, j < headers.length → headers.getD j "" = headers.getD i "" → j ≤ i) :
    dictGet row (headers.getD i "") = some (pyStrip ((line.getD i none).getD "")) :=
  buildRowGo_last_wins headers line [] row i hok hi hlast

theorem stepRow_keys (st : PyDict EmployeeRecord) (row : RawRow)
    (st' : PyDict EmployeeRecord) (hok : stepRow st row = .ok st') :
    dictKeys st' = match rowName row with
      | none => dictKeys st
      | some n => seenInsert (dictKeys st) n := by
  cases hn : rowName row with
  | none =>
    rw [stepRow_skip st row hn] at hok
    cases hok
    rfl
  | some n =>
    rw [stepRow_named st row n hn] at hok
    cases hh : parseField row "Hours" with
    | error e => rw [hh, exceptBind_error] at hok; cases hok
    | ok hours =>
      cases ha : parseField row "Amount" with
      | error e => rw [hh, exceptBind_ok, ha, exceptBind_error] at hok; cases hok
      | ok amount =>
        rw [hh, exceptBind_ok, ha, exceptBind_ok] at hok
        cases hok
        rw [dictKeys_dictSet]
        simp [seenInsert]

theorem compileAux_keys (rows : List RawRow) (st m : PyDict EmployeeRecord)
    (hok : compileAux st rows = .ok m) :
    dictKeys m = (rows.filterMap rowName).foldl seenInsert (dictKeys st) := by
  induction rows generalizing st with
  | nil =>
    rw [compileAux_nil] at hok
    cases hok
    rfl
  | cons row rest ih =>
    rw [compileAux_cons] at hok
    cases hstep : stepRow st row with
    | error e => rw [hstep, exceptBind_error] at hok; cases hok
    | ok st2 =>
      rw [hstep, exceptBind_ok] at hok
      have hk := stepRow_keys st row st2 hstep
      cases hn : rowName row with
      | none =>
        rw [hn] at hk
        simp only [List.filterMap_cons, hn]
        rw [ih st2 hok, hk]
      | some n =>
        rw [hn] at hk
        simp only [List.filterMap_cons, hn]
        rw [ih st2 hok, hk, List.foldl_cons]

theorem seenInsert_nodup (acc : List String) (n : String) (h : acc.Nodup) :
    (seenInsert acc n).Nodup := by
  unfold seenInsert
  split
  · exact h
  · rename_i hmem
    simp [List.nodup_append, h, hmem]

theorem foldl_seenInsert_nodup (names acc : List String) (h : acc.Nodup) :
    (names.foldl seenInsert acc).Nodup := by
  induction names generalizing acc with
  | nil => exact h
  | cons a l ih => exact ih _ (seenInsert_nodup acc a h)

theorem EmployeeRecord.leRefl (r : EmployeeRecord) : r.le r := by
  unfold EmployeeRecord.le
  exact ⟨le_refl _, le_refl _, le_refl _⟩

theorem EmployeeRecord.leTrans {r1 r2 r3 : EmployeeRecord}
    (h1 : r1.le r2) (h2 : r2.le r3) : r1.le r3 := by
  unfold EmployeeRecord.le at *
  exact ⟨h1.1.trans h2.1, h1.2.1.trans h2.2.1, h1.2.2.trans h2.2.2⟩

theorem applyCodes_pays (r : EmployeeRecord) (row : RawRow) :
    (applyCodes r row).regular_pay = r.regular_pay ∧
    (applyCodes r row).overtime_pay = r.overtime_pay ∧
    (applyCodes r row).overtime_hours = r.overtime_hours := by
  by_cases he : r.employee_code = "" <;> by_cases hw : r.work_code = "" <;>
    simp [applyCodes, he, hw]

theorem stepRow_mono (st : PyDict EmployeeRecord) (row : RawRow)
    (st' : PyDict EmployeeRecord) (hok : stepRow st row = .ok st') (hnn : rowNonneg row)
    (n : String) (r : EmployeeRecord) (hget : dictGet st n = some r) :
    ∃ r', dictGet st' n = some r' ∧ r.le r' := by
  cases hn : rowName row with
  | none =>
    rw [stepRow_skip st row hn] at hok
    cases hok
    exact ⟨r, hget, r.leRefl⟩
  | some name =>
    rw [stepRow_named st row name hn] at hok
    cases hh : parseField row "Hours" with
    | error e => rw [hh, exceptBind_error] at hok; cases hok
    | ok hours =>
      cases ha : parseField row "Amount" with
      | error e => rw [hh, exceptBind_ok, ha, exceptBind_error] at hok; cases hok
      | ok amount =>
        have hh0 : 0 ≤ hours := by
          have := hnn.1
          rw [hh] at this
          simpa [Except.toOption] using this
        have ha0 : 0 ≤ amount := by
          have := hnn.2
          rw [ha] at this
          simpa [Except.toOption] using this
        rw [hh, exceptBind_ok, ha, exceptBind_ok] at hok
        cases hok
        by_cases hname : name = n
        · subst hname
          rw [hget]
          refine ⟨applyPay (applyCodes r row) row hours amount, ?_, ?_⟩
          · rw [dictGet_dictSet, if_pos rfl]
            rfl
          · obtain ⟨e1, e2, e3⟩ := applyCodes_pays r row
            unfold EmployeeRecord.le applyPay
            split <;> refine ⟨?_, ?_, ?_⟩ <;> simp [e1, e2, e3] <;> linarith [hh0, ha0]
        · refine ⟨r, ?_, r.leRefl⟩
          rw [dictGet_dictSet, if_neg hname, hget]

theorem compileAux_mono (rows : List RawRow) (st st' : PyDict EmployeeRecord)
    (hok : compileAux st rows = .ok st') (hnn : ∀ row ∈ rows, rowNonneg row)
    (n : String) (r : EmployeeRecord) (hget : dictGet st n = some r) :
    ∃ r', dictGet st' n = some r' ∧ r.le r' := by
  induction rows generalizing st r with
  | nil =>
    rw [compileAux_nil] at hok
    cases hok
    exact ⟨r, hget, r.leRefl⟩
  | cons row rest ih =>
    rw [compileAux_cons] at hok
    cases hstep : stepRow st row with
    | error e => rw [hstep, exceptBind_error] at hok; cases hok
    | ok st2 =>
      rw [hstep, exceptBind_ok] at hok
      obtain ⟨r2, hget2, hle2⟩ :=
        stepRow_mono st row st2 hstep (hnn row (List.mem_cons_self _ _)) n r hget
      obtain ⟨r', hget', hle'⟩ :=
        ih st2 hok (fun rw2 h => hnn rw2 (List.mem_cons_of_mem _ h)) r2 hget2
      exact ⟨r', hget', EmployeeRecord.leTrans hle2 hle'⟩

/-- C7: throughout the fold, the mapping holds exactly one record per
distinct resolved name, its keys listed in first-seen order (hence
without duplicates); and, whenever every parsed Hours/Amount value of the
rows folded in is non-negative, each existing record's regular-pay,
overtime-pay and overtime-hours accumulators never decrease. -/
theorem compile_records_fold_invariants :
    (∀ (rows : List RawRow) (m : PyDict EmployeeRecord),
      compile_records rows = .ok m →
      dictKeys m = firstSeen (rows.filterMap rowName) ∧ (dictKeys m).Nodup) ∧
    (∀ (m : PyDict EmployeeRecord) (extra : List RawRow) (m' : PyDict EmployeeRecord),
      (∀ row ∈ extra, rowNonneg row) → compileAux m extra = .ok m' →
      ∀ (n : String) (r : EmployeeRecord), dictGet m n = some r →
        ∃ r', dictGet m' n = some r' ∧ r.le r') := by
  constructor
  · intro rows m hok
    have h1 := compileAux_keys rows [] m hok
    constructor
    · simpa [firstSeen, dictKeys] using h1
    · rw [h1]
      exact foldl_seenInsert_nodup _ _ (by simp [dictKeys])
  · intro m extra m' hnn hok n r hget
    exact compileAux_mono extra m m' hok hnn n r hget

/-- Witness for the C7 theorem: key order on a three-row stream, and
accumulator growth when one more non-negative OT row is folded in. -/
theorem compile_records_fold_invariants_witness :
    (dictKeys [("A", (⟨"", "", 0, 0, 0⟩ : EmployeeRecord)),
        ("B", (⟨"", "", 0, 0, 0⟩ : EmployeeRecord))] =
      firstSeen ([[("Name", "A")], [("Name", "B")], [("Name", "A")]].filterMap rowName) ∧
      (dictKeys [("A", (⟨"", "", 0, 0, 0⟩ : EmployeeRecord)),
        ("B", (⟨"", "", 0, 0, 0⟩ : EmployeeRecord))]).Nodup) ∧
    (∃ r', dictGet [("A", (⟨"", "", 1, 7, 5⟩ : EmployeeRecord))] "A" = some r' ∧
      EmployeeRecord.le ⟨"", "", 1, 2, 3⟩ r') :=
  ⟨compile_records_fold_invariants.1 [[("Name", "A")], [("Name", "B")], [("Name", "A")]]
      [("A", ⟨"", "", 0, 0, 0⟩), ("B", ⟨"", "", 0, 0, 0⟩)] (by decide),
   compile_records_fold_invariants.2 [("A", ⟨"", "", 1, 2, 3⟩)]
      [[("Name", "A"), ("Pay Type", "OT"), ("Amount", "5"), ("Hours", "2")]]
      [("A", ⟨"", "", 1, 7, 5⟩)] (by decide) (by decide) "A" ⟨"", "", 1, 2, 3⟩ (by decide)⟩

/-- Witness for the C10 theorem: header ["A", "A"] with cells "x" and "y"
yields a row whose key "A" holds "y", the last column's cell. -/
theorem parse_pdf_duplicate_header_last_wins_witness :
    dictGet [("A", "y")] (["A", "A"].getD 1 "") =
      some (pyStrip (([some "x", some "y"].getD 1 none).getD "")) :=
  parse_pdf_duplicate_header_last_wins ["A", "A"] [some "x", some "y"] [("A", "y")] 1
    (by decide) (by decide) (fun j hj _ => by simp at hj; omega)

end
